import Mathlib

/-!
Shallow embedding of the commit-extraction web app (commit filter,
detail-level formatter, aggregate report builder, pagination fetcher),
translated from the TypeScript source, together with theorems settling
the specification claims.
-/

/-- Repository record as carried on a tagged commit (the fetcher tags each
commit with `repository: { name: selectedRepo }`). -/
structure Repository where
  name : String
deriving Repr, DecidableEq

/-- Author block of a commit (`commit.commit.author`); the authored instant is
kept as milliseconds since the Unix epoch (the value of `Date.getTime()`). -/
structure CommitAuthor where
  name : String
  email : String
  date : Nat
deriving Repr, DecidableEq

/-- Optional stats block of a commit (`commit.stats`). -/
structure CommitStats where
  additions : Nat
  deletions : Nat
deriving Repr, DecidableEq

/-- Commit object as consumed by the components: full sha, author block, raw
message, canonical URL, the repository tag added by the fetcher (absent on raw
API items), optional stats and optional changed-file list. -/
structure Commit where
  sha : String
  author : CommitAuthor
  message : String
  html_url : String
  repository : Option Repository
  stats : Option CommitStats
  files : Option (List String)
deriving Repr, DecidableEq

/-- Repository name used by the filter predicate, from
`commit.repository?.name || 'unknown'` in `applyFilters` (JS `||` also
replaces an empty string, which is falsy). -/
def filterRepoName (c : Commit) : String :=
  match c.repository with
  | none => "unknown"
  | some r => if r.name = "" then "unknown" else r.name

/-- Token constants per detail level, from `getTokensPerCommit`:
`tokenMap[level] || 100` with `tokenMap = {1:25, 2:50, 3:100, 4:150, 5:200}`. -/
def getTokensPerCommit (level : Int) : Int :=
  if level = 1 then 25
  else if level = 2 then 50
  else if level = 3 then 100
  else if level = 4 then 150
  else if level = 5 then 200
  else 100

/-- Commit filter `applyFilters`: keep the commits whose tagged repository name
is in the selection (an empty selection keeps everything), and estimate tokens
as `filteredCommits.length * getTokensPerCommit detail`. -/
def applyFilters (commits : List Commit) (repos : List String) (detail : Int) :
    List Commit × Int :=
  let filteredCommits := commits.filter fun c =>
    if repos.length = 0 then true else repos.contains (filterRepoName c)
  let estimatedTokens := (filteredCommits.length : Int) * getTokensPerCommit detail
  (filteredCommits, estimatedTokens)

/-- Small concrete commit list used by the witnesses: two tagged commits and
one untagged commit. -/
def demoCommits : List Commit :=
  [ { sha := "aaaaaaaaaaaa", author := ⟨"Alice", "alice@example.com", 1704067200000⟩,
      message := "first", html_url := "u1", repository := some ⟨"alpha"⟩,
      stats := none, files := none },
    { sha := "bbbbbbbbbbbb", author := ⟨"Bob", "bob@example.com", 1704070800000⟩,
      message := "second", html_url := "u2", repository := some ⟨"beta"⟩,
      stats := none, files := none },
    { sha := "cccccccccccc", author := ⟨"Alice", "alice@example.com", 1704074400000⟩,
      message := "third", html_url := "u3", repository := none,
      stats := none, files := none } ]

/-- Single concrete commit used by the witnesses, with a multi-line message
so that the body-dependent branches of the formatter are exercised. -/
def demoCommit : Commit :=
  { sha := "0123456789abcdef0123456789abcdef01234567",
    author := ⟨"Alice", "alice@example.com", 1704103800000⟩,
    message := "Add feature\n\nLonger description of the change.",
    html_url := "https://example.com/commit/0123456",
    repository := some ⟨"alpha"⟩,
    stats := some ⟨10, 2⟩,
    files := some ["a.ts", "b.ts"] }

/-- Two-digit zero padding, as produced by the `dd`/`MM`/`HH`/`mm`/`ss`
patterns of the date-formatting library. -/
def pad2 (n : Nat) : String :=
  if n < 10 then "0" ++ toString n else toString n

/-- Abbreviated month name, as produced by the `MMM` pattern. -/
def monthName (m : Nat) : String :=
  match m with
  | 1 => "Jan" | 2 => "Feb" | 3 => "Mar" | 4 => "Apr" | 5 => "May" | 6 => "Jun"
  | 7 => "Jul" | 8 => "Aug" | 9 => "Sep" | 10 => "Oct" | 11 => "Nov" | 12 => "Dec"
  | _ => ""

/-- Civil date (year, month, day) from a count of days since 1970-01-01,
the standard days-to-civil conversion used to model the external
date-formatting library on post-1970 instants. -/
def civilFromDays (days : Nat) : Nat × Nat × Nat :=
  let z := days + 719468
  let era := z / 146097
  let doe := z % 146097
  let yoe := (doe - doe / 1460 + doe / 36524 - doe / 146096) / 365
  let y := yoe + era * 400
  let doy := doe - (365 * yoe + yoe / 4 - yoe / 100)
  let mp := (5 * doy + 2) / 153
  let d := doy - (153 * mp + 2) / 5 + 1
  let m := if mp < 10 then mp + 3 else mp - 9
  (if m ≤ 2 then y + 1 else y, m, d)

/-- Model of `format(date, 'yyyy-MM-dd')` on a millisecond timestamp. -/
def formatYMD (ms : Nat) : String :=
  let (y, m, d) := civilFromDays (ms / 86400000)
  toString y ++ "-" ++ pad2 m ++ "-" ++ pad2 d

/-- Model of `format(date, 'yyyy-MM-dd HH:mm')`. -/
def formatYMDHM (ms : Nat) : String :=
  formatYMD ms ++ " " ++ pad2 (ms % 86400000 / 3600000) ++ ":" ++
    pad2 (ms % 3600000 / 60000)

/-- Model of `format(date, 'yyyy-MM-dd HH:mm:ss')`. -/
def formatYMDHMS (ms : Nat) : String :=
  formatYMDHM ms ++ ":" ++ pad2 (ms % 60000 / 1000)

/-- Model of `format(date, 'MMM dd, yyyy')`. -/
def formatMMMddyyyy (ms : Nat) : String :=
  let (y, m, d) := civilFromDays (ms / 86400000)
  monthName m ++ " " ++ pad2 d ++ ", " ++ toString y

/-- Message title: `commit.commit.message.split('\n')[0]`. -/
def msgTitle (c : Commit) : String :=
  (c.message.splitOn "\n").headD ""

/-- Message body: `message.split('\n').slice(1).join('\n').trim()`. -/
def msgBody (c : Commit) : String :=
  (String.intercalate "\n" ((c.message.splitOn "\n").drop 1)).trim

/-- Short hash: `commit.sha.substring(0, 8)`. -/
def shortSha (c : Commit) : String :=
  c.sha.take 8

/-- Repository display name used by the exporter:
`commit.repository?.name || 'Unknown'` (capitalised default, unlike the
filter's lowercase `'unknown'`). -/
def exporterRepoName (c : Commit) : String :=
  match c.repository with
  | none => "Unknown"
  | some r => if r.name = "" then "Unknown" else r.name

/-- Detail-level formatter `formatCommitByDetailLevel`: one text block per
commit, switching on the level with levels 1..5 and a default case that
renders at level 3. -/
def formatCommitByDetailLevel (c : Commit) (index : Nat) (level : Int) : String :=
  let title := msgTitle c
  let body := msgBody c
  let date := c.author.date
  if level = 1 then
    toString index ++ ". " ++ shortSha c ++ " - " ++ title ++ "\n"
  else if level = 2 then
    toString index ++ ". **" ++ title ++ "**\n   SHA: " ++ shortSha c ++
      " | Author: " ++ c.author.name ++ " | " ++ formatMMMddyyyy date ++ "\n"
  else if level = 3 then
    "### " ++ toString index ++ ". " ++ title ++
      "\n**SHA:** " ++ shortSha c ++
      "\n**Date:** " ++ formatYMDHM date ++
      "\n**Author:** " ++ c.author.name ++ "\n" ++
      (if body ≠ "" then "**Details:** " ++ body ++ "\n" else "") ++
      "---\n"
  else if level = 4 then
    "### " ++ toString index ++ ". " ++ title ++
      "\n**SHA:** " ++ shortSha c ++
      "\n**Date:** " ++ formatYMDHMS date ++
      "\n**Author:** " ++ c.author.name ++ " <" ++ c.author.email ++ ">" ++
      "\n**Repository:** " ++ exporterRepoName c ++ "\n" ++
      (if body ≠ "" then "**Description:** " ++ body ++ "\n" else "") ++
      "**URL:** " ++ c.html_url ++ "\n\n---\n"
  else if level = 5 then
    "### " ++ toString index ++ ". " ++ title ++
      "\n**SHA:** " ++ c.sha ++
      "\n**Date:** " ++ formatYMDHMS date ++
      "\n**Author:** " ++ c.author.name ++ " <" ++ c.author.email ++ ">" ++
      "\n**Repository:** " ++ exporterRepoName c ++ "\n" ++
      (if body ≠ "" then "**Description:**\n" ++ body ++ "\n" else "") ++
      "**Stats:** " ++
      (match c.stats with
       | some st => "+" ++ toString st.additions ++ " -" ++ toString st.deletions
       | none => "N/A") ++
      "\n**Files changed:** " ++
      (match c.files with
       | some fs => toString fs.length
       | none => "N/A") ++
      "\n**URL:** " ++ c.html_url ++ "\n\n---\n"
  else
    "### " ++ toString index ++ ". " ++ title ++
      "\n**SHA:** " ++ shortSha c ++
      "\n**Date:** " ++ formatYMDHM date ++
      "\n**Author:** " ++ c.author.name ++ "\n" ++
      (if body ≠ "" then "**Details:** " ++ body ++ "\n" else "") ++
      "---\n"

/-- Semantic items a formatted commit block can render, one per interpolated
datum of `formatCommitByDetailLevel`; the date items record the precision
(day, minute, second) and the hash items whether the hash is truncated. -/
inductive CommitField where
  | seqIndex | titleLine | shortHash | fullHash
  | authorNameF | authorEmailF
  | dateDay | dateMinute | dateSecond
  | bodyF | repoNameF | urlF | statsF | filesCountF
deriving Repr, DecidableEq

/-- Information order on fields: `subsumes f g` holds when the datum rendered
by `f` carries at least the information of `g` (a field subsumes itself, a
higher-precision date subsumes a lower-precision one, and the full hash
subsumes the truncated hash, of which it is an extension). -/
def subsumes (f g : CommitField) : Bool :=
  (f == g) ||
    match f, g with
    | .dateMinute, .dateDay => true
    | .dateSecond, .dateDay => true
    | .dateSecond, .dateMinute => true
    | .fullHash, .shortHash => true
    | _, _ => false

/-- Fields interpolated by each case of `formatCommitByDetailLevel`, in the
order they appear in the corresponding template string, parameterised by
whether the message body is non-empty (the body field is rendered only in
that case, exactly as in the source). -/
def renderedFieldsAt (hasBody : Bool) (level : Int) : List CommitField :=
  let bodyFields : List CommitField := if hasBody then [.bodyF] else []
  if level = 1 then [.seqIndex, .shortHash, .titleLine]
  else if level = 2 then [.seqIndex, .titleLine, .shortHash, .authorNameF, .dateDay]
  else if level = 3 then
    [.seqIndex, .titleLine, .shortHash, .dateMinute, .authorNameF] ++ bodyFields
  else if level = 4 then
    [.seqIndex, .titleLine, .shortHash, .dateSecond, .authorNameF, .authorEmailF,
      .repoNameF] ++ bodyFields ++ [.urlF]
  else if level = 5 then
    [.seqIndex, .titleLine, .fullHash, .dateSecond, .authorNameF, .authorEmailF,
      .repoNameF] ++ bodyFields ++ [.statsF, .filesCountF, .urlF]
  else
    [.seqIndex, .titleLine, .shortHash, .dateMinute, .authorNameF] ++ bodyFields

/-- Fields interpolated by `formatCommitByDetailLevel` for a given commit and
level. -/
def renderedFields (c : Commit) (level : Int) : List CommitField :=
  renderedFieldsAt (msgBody c != "") level

/-- Time span in days used by the report summary:
`Math.ceil((to.getTime() - from.getTime()) / (1000 * 60 * 60 * 24))`,
expressed as an exact integer ceiling division. -/
def timeSpanDays (fromMs toMs : Int) : Int :=
  (toMs - fromMs + (86400000 - 1)) / 86400000

/-- Toast notifications surfaced by the commit-extraction page. -/
inductive Toast where
  | missingInfo
  | commitsLoaded (n : Nat)
  | fetchError
deriving Repr, DecidableEq

/-- UI state touched by `fetchCommits`: the stored commit list, the filtered
commit list and the toast notifications shown so far. -/
structure AppState where
  commits : List Commit
  filteredCommits : List Commit
  toasts : List Toast
deriving Repr, DecidableEq

/-- Page size of the pagination fetcher: `const perPage = 100`. -/
def perPage : Nat := 100

/-- Tag a fetched commit with its source repository:
`{ ...commit, repository: { name: selectedRepo } }`. -/
def tagRepo (repo : String) (c : Commit) : Commit :=
  { c with repository := some ⟨repo⟩ }

/-- Pagination loop of `fetchCommits`, one recursive step per page request,
consuming the next remote response each iteration. A response is `.error` for
a non-success status (the loop throws) and `.ok page` otherwise; the loop
stops on an empty page, keeping the accumulator, or after appending a page
shorter than `perPage`. The result pairs the loop outcome with the number of
requests issued. The source loop is `while (true)` and requests another page
only after a full one, so when the last consumed response is short, empty or
an error the model issues exactly the requests the source would (the `[]`
case is unreachable under the theorems' hypotheses). -/
def fetchLoop (repo : String) (acc : List Commit) :
    List (Except Unit (List Commit)) → Except Unit (List Commit) × Nat
  | [] => (.ok acc, 0)
  | .error _ :: _ => (.error (), 1)
  | .ok pageCommits :: rest =>
    if pageCommits.length = 0 then (.ok acc, 1)
    else
      let commitsWithRepo := pageCommits.map (tagRepo repo)
      if pageCommits.length < perPage then (.ok (acc ++ commitsWithRepo), 1)
      else
        let r := fetchLoop repo (acc ++ commitsWithRepo) rest
        (r.1, r.2 + 1)

/-- Handler `fetchCommits` of the page component: guard on a missing
repository or date range, clear the stored commit list, run the pagination
loop; on success store the accumulated commits (also as the filtered list)
and toast a success notice, on a thrown error toast a single error notice.
Returns the new UI state and the number of page requests issued. -/
def fetchCommits (selectedRepo : String) (dateRange : Option (Nat × Nat))
    (responses : List (Except Unit (List Commit))) (st : AppState) :
    AppState × Nat :=
  if selectedRepo = "" ∨ dateRange = none then
    ({ st with toasts := st.toasts ++ [Toast.missingInfo] }, 0)
  else
    let st1 := { st with commits := [] }
    match fetchLoop selectedRepo [] responses with
    | (.ok allCommits, n) =>
      ({ st1 with commits := allCommits, filteredCommits := allCommits,
                  toasts := st1.toasts ++ [Toast.commitsLoaded allCommits.length] }, n)
    | (.error _, n) =>
      ({ st1 with toasts := st1.toasts ++ [Toast.fetchError] }, n)

/-- One step of the JS reduce building a count record,
`acc[key] = (acc[key] || 0) + 1`, on an insertion-ordered association list
(JS object keys enumerate in insertion order for non-numeric string keys,
which is how `Object.entries` later reads them back). -/
def bumpKey : List (String × Nat) → String → List (String × Nat)
  | [], k => [(k, 1)]
  | (j, n) :: rest, k =>
    if j = k then (j, n + 1) :: rest else (j, n) :: bumpKey rest k

/-- The `authorCount` record of `getAuthorAnalysis`: commit authors counted in
first-encounter order. -/
def authorCounts (cs : List Commit) : List (String × Nat) :=
  cs.foldl (fun acc c => bumpKey acc c.author.name) []

/-- The `repoCount` record of `getRepositoryBreakdown`. -/
def repoCounts (cs : List Commit) : List (String × Nat) :=
  cs.foldl (fun acc c => bumpKey acc (exporterRepoName c)) []

/-- Order induced by the sort comparator `([,a],[,b]) => b - a`: an entry
precedes another when its count is at least as large. -/
def countGe (x y : String × Nat) : Prop := y.2 ≤ x.2

instance : DecidableRel countGe := fun x y =>
  inferInstanceAs (Decidable (y.2 ≤ x.2))

instance : IsTotal (String × Nat) countGe :=
  ⟨fun x y => (Nat.le_total y.2 x.2).imp id id⟩

instance : IsTrans (String × Nat) countGe :=
  ⟨fun _ _ _ hxy hyz => Nat.le_trans hyz hxy⟩

/-- The `.sort(([,a],[,b]) => b - a)` call: `Array.prototype.sort` is stable
(ECMAScript 2019), so it is modelled as a stable sort with respect to the
comparator, namely insertion sort under `countGe`. -/
def sortByCountDesc (l : List (String × Nat)) : List (String × Nat) :=
  l.insertionSort countGe

/-- Ranked author list of `getAuthorAnalysis`:
`Object.entries(authorCount).sort(([,a],[,b]) => b - a).slice(0, 5)`. -/
def topAuthors (cs : List Commit) : List (String × Nat) :=
  (sortByCountDesc (authorCounts cs)).take 5

/-- Rendered author-analysis section of the report. -/
def getAuthorAnalysis (cs : List Commit) : String :=
  String.intercalate "\n" ((topAuthors cs).map fun e =>
    "- **" ++ e.1 ++ ":** " ++ toString e.2 ++ " commits")

/-- Rendered repository-breakdown section of the report. -/
def getRepositoryBreakdown (cs : List Commit) : String :=
  String.intercalate "\n" ((repoCounts cs).map fun e =>
    "- **" ++ e.1 ++ ":** " ++ toString e.2 ++ " commits")

/-- Keys of a list in first-occurrence order, the order in which a JS object
accumulates fresh string keys. -/
def firstOccurrences : List String → List String
  | [] => []
  | k :: ks => k :: (firstOccurrences ks).filter (fun x => x != k)

/-- First lookup of a key in an association list, with 0 for a missing key
(the `acc[author] || 0` read). -/
def lookupCount : List (String × Nat) → String → Nat
  | [], _ => 0
  | (j, n) :: rest, k => if j = k then n else lookupCount rest k

/-- Commit with a given author name, used by the tie-breaking example. -/
def mkAuthorCommit (name : String) : Commit :=
  { sha := "", author := ⟨name, "", 0⟩, message := "", html_url := "",
    repository := none, stats := none, files := none }

/-- Commit list realising author counts A:5, B:5, C:3 with A encountered
before B. -/
def tieExampleCommits : List Commit :=
  (["A", "B", "A", "B", "C", "A", "B", "C", "A", "B", "C", "A", "B"]).map
    mkAuthorCommit

/-- Detail-level display name: `names[level] || "Standard"`. -/
def getDetailLevelName (level : Int) : String :=
  if level = 1 then "Minimal"
  else if level = 2 then "Basic"
  else if level = 3 then "Standard"
  else if level = 4 then "Detailed"
  else if level = 5 then "Maximum"
  else "Standard"

/-- Comma insertion into a reversed digit list, every three digits, modelling
`Number.prototype.toLocaleString` in its en-US default. -/
def insertCommasRev : List Char → Nat → List Char
  | [], _ => []
  | c :: cs, i =>
    (if 0 < i ∧ i % 3 = 0 then [',', c] else [c]) ++ insertCommasRev cs (i + 1)

/-- Model of `tokenCount.toLocaleString()`. -/
def toLocaleStr (n : Int) : String :=
  (if n < 0 then "-" else "") ++
    String.mk (insertCommasRev (toString n.natAbs).data.reverse 0).reverse

/-- Two-decimal rendering of the exact rational `num / den` (`den > 0`),
rounding half away from zero, modelling `Number.prototype.toFixed(2)` on the
quotients this app produces. -/
def toFixed2 (num den : Nat) : String :=
  let q := (200 * num + den) / (2 * den)
  toString (q / 100) ++ "." ++ pad2 (q % 100)

/-- The `(filteredCommits.length / span).toFixed(2)` expression of the report
summary: a zero span yields Infinity (or NaN for 0/0), exactly as JS division
by zero does. -/
def avgPerDayStr (count : Nat) (span : Int) : String :=
  if span = 0 then (if count = 0 then "NaN" else "Infinity")
  else if span < 0 then "-" ++ toFixed2 count (-span).toNat
  else toFixed2 count span.toNat

/-- Header of the optimized report up to and excluding the Total Commits
line. -/
def reportHeaderPre (username : String) (selectedRepos : List String)
    (fromMs toMs : Nat) : String :=
  "# GitHub Commit Analysis - Optimized for LLM\n\n**User:** " ++ username ++
  "\n**Repositories:** " ++
  (if selectedRepos.length > 0 then String.intercalate ", " selectedRepos
   else "All repositories") ++
  "\n**Date Range:** " ++ formatYMD fromMs ++ " to " ++ formatYMD toMs ++ "\n"

/-- The Total Commits line of the header:
`**Total Commits:** ${filteredCommits.length} (filtered from ${commits.length})`. -/
def totalCommitsText (flen clen : Nat) : String :=
  "**Total Commits:** " ++ toString flen ++ " (filtered from " ++
    toString clen ++ ")"

/-- Remainder of the header after the Total Commits line. -/
def reportHeaderPost (detailLevel : Int) (tokenCount : Int) (now : Nat) :
    String :=
  "\n**Detail Level:** " ++ getDetailLevelName detailLevel ++
  "\n**Estimated Tokens:** " ++ toLocaleStr tokenCount ++
  "\n**Generated:** " ++ formatYMDHMS now ++
  "\n\n---\n\n## Commit Data\n\n"

/-- Header of the optimized report. -/
def reportHeader (username : String) (selectedRepos : List String)
    (fromMs toMs : Nat) (detailLevel : Int) (tokenCount : Int) (now : Nat)
    (commits filteredCommits : List Commit) : String :=
  reportHeaderPre username selectedRepos fromMs toMs ++
    totalCommitsText filteredCommits.length commits.length ++
    reportHeaderPost detailLevel tokenCount now

/-- Per-commit section of the report:
`filteredCommits.map((commit, index) => formatCommitByDetailLevel(commit, index + 1, detailLevel)).join('\n')`. -/
def commitDetailsSection (filteredCommits : List Commit) (detailLevel : Int) :
    String :=
  String.intercalate "\n" (filteredCommits.mapIdx fun i c =>
    formatCommitByDetailLevel c (i + 1) detailLevel)

/-- Summary section of the report. -/
def reportSummary (selectedRepos : List String) (fromMs toMs : Nat)
    (detailLevel : Int) (filteredCommits : List Commit) : String :=
  "\n## Summary\n\n- **Commits analyzed:** " ++
    toString filteredCommits.length ++
  "\n- **Repositories:** " ++
  (if selectedRepos.length > 0 then toString selectedRepos.length else "All") ++
  "\n- **Time span:** " ++ toString (timeSpanDays fromMs toMs) ++ " days" ++
  "\n- **Average commits/day:** " ++
    avgPerDayStr filteredCommits.length (timeSpanDays fromMs toMs) ++
  "\n\n### Repository Breakdown\n" ++ getRepositoryBreakdown filteredCommits ++
  "\n\n### Author Analysis\n" ++ getAuthorAnalysis filteredCommits ++
  "\n\n---\n\n*This data is optimized for LLM analysis with " ++
    toString detailLevel ++
  "/5 detail level. Ask questions about patterns, productivity, code changes, or development insights.*"

/-- `generateOptimizedFormat`: the full exported document, the concatenation
of the header, the per-commit blocks in input order, and the summary. -/
def generateOptimizedFormat (username : String) (selectedRepos : List String)
    (fromMs toMs : Nat) (detailLevel : Int) (tokenCount : Int) (now : Nat)
    (commits filteredCommits : List Commit) : String :=
  reportHeader username selectedRepos fromMs toMs detailLevel tokenCount now
      commits filteredCommits ++
    commitDetailsSection filteredCommits detailLevel ++
    reportSummary selectedRepos fromMs toMs detailLevel filteredCommits

/-- C3: for every commit list, repository selection and detail level in [1,5],
the aggregate token estimate produced by `applyFilters` equals the number of
filtered commits times the constant 25/50/100/150/200 for levels 1..5. -/
theorem applyFilters_token_estimate (commits : List Commit) (repos : List String)
    (level : Int) (h1 : 1 ≤ level) (h5 : level ≤ 5) :
    (applyFilters commits repos level).2 =
      ((applyFilters commits repos level).1.length : Int) *
        (if level = 1 then 25 else if level = 2 then 50 else if level = 3 then 100
         else if level = 4 then 150 else 200) := by
  have h : level = 1 ∨ level = 2 ∨ level = 3 ∨ level = 4 ∨ level = 5 := by omega
  rcases h with h | h | h | h | h <;> subst h <;> rfl

/-- Witness for C3 at a concrete input: three commits, level 2. -/
theorem applyFilters_token_estimate_witness :
    (1 : Int) ≤ 2 ∧ (2 : Int) ≤ 5 ∧
      (applyFilters demoCommits ["alpha"] 2).2 =
        ((applyFilters demoCommits ["alpha"] 2).1.length : Int) *
          (if (2 : Int) = 1 then 25 else if (2 : Int) = 2 then 50
           else if (2 : Int) = 3 then 100 else if (2 : Int) = 4 then 150 else 200) :=
  ⟨by norm_num, by norm_num,
    applyFilters_token_estimate demoCommits ["alpha"] 2 (by norm_num) (by norm_num)⟩

/-- C4: filtering with an empty selection returns the input list unchanged; a
non-empty selection returns exactly the commits whose tagged repository name is
in the selection, in input order; and the output is always a sublist of the
input (stable filter, no resorting). -/
theorem applyFilters_selection (commits : List Commit) (repos : List String)
    (detail : Int) :
    (applyFilters commits [] detail).1 = commits ∧
    (repos ≠ [] →
      (applyFilters commits repos detail).1 =
        commits.filter (fun c => repos.contains (filterRepoName c))) ∧
    List.Sublist (applyFilters commits repos detail).1 commits := by
  refine ⟨?_, ?_, ?_⟩
  · simp [applyFilters]
  · intro h
    have hl : ¬ repos.length = 0 := by simpa [List.length_eq_zero] using h
    simp [applyFilters, hl]
  · exact List.filter_sublist _

/-- Witness for C4 at a concrete input, discharging the non-empty-selection
hypothesis with the selection `["alpha"]`. -/
theorem applyFilters_selection_witness :
    (applyFilters demoCommits [] 3).1 = demoCommits ∧
    (applyFilters demoCommits ["alpha"] 3).1 =
      demoCommits.filter (fun c => ["alpha"].contains (filterRepoName c)) :=
  ⟨(applyFilters_selection demoCommits ["alpha"] 3).1,
   (applyFilters_selection demoCommits ["alpha"] 3).2.1 (by decide)⟩

/-- C9: for every detail level outside [1,5] the per-commit token constant is
100 (the level-3 constant), so the aggregate estimate for an out-of-range
level is the filtered count times 100. -/
theorem getTokensPerCommit_out_of_range (level : Int) (h : level < 1 ∨ 5 < level) :
    getTokensPerCommit level = 100 ∧
    ∀ (commits : List Commit) (repos : List String),
      (applyFilters commits repos level).2 =
        ((applyFilters commits repos level).1.length : Int) * 100 := by
  have h1 : level ≠ 1 := by omega
  have h2 : level ≠ 2 := by omega
  have h3 : level ≠ 3 := by omega
  have h4 : level ≠ 4 := by omega
  have h5 : level ≠ 5 := by omega
  have ht : getTokensPerCommit level = 100 := by
    simp [getTokensPerCommit, h1, h2, h3, h4, h5]
  exact ⟨ht, fun commits repos => by simp [applyFilters, ht]⟩

/-- Witness for C9 at the concrete out-of-range level 0. -/
theorem getTokensPerCommit_out_of_range_witness :
    getTokensPerCommit 0 = 100 ∧
    (applyFilters demoCommits [] 0).2 =
      ((applyFilters demoCommits [] 0).1.length : Int) * 100 :=
  ⟨(getTokensPerCommit_out_of_range 0 (Or.inl (by norm_num))).1,
   (getTokensPerCommit_out_of_range 0 (Or.inl (by norm_num))).2 demoCommits []⟩

/-- C10: a commit with no tagged repository is treated as repository name
"unknown" by the filter: it passes whenever the selection is empty, and under
a non-empty selection it passes exactly when "unknown" is selected. -/
theorem filter_unknown_repo (c : Commit) (hc : c.repository = none) :
    filterRepoName c = "unknown" ∧
    ∀ (commits : List Commit) (repos : List String) (detail : Int),
      (c ∈ (applyFilters commits repos detail).1 ↔
        c ∈ commits ∧ (repos = [] ∨ "unknown" ∈ repos)) := by
  have hn : filterRepoName c = "unknown" := by simp [filterRepoName, hc]
  refine ⟨hn, fun commits repos detail => ?_⟩
  by_cases hr : repos = []
  · subst hr
    simp [applyFilters]
  · have hl : ¬ repos.length = 0 := by simpa [List.length_eq_zero] using hr
    simp [applyFilters, hl, hn, List.mem_filter, hr]

/-- Witness for C10 at a concrete untagged commit and the selection
`["unknown"]`. -/
theorem filter_unknown_repo_witness :
    filterRepoName { sha := "cccccccccccc",
                     author := ⟨"Alice", "alice@example.com", 1704074400000⟩,
                     message := "third", html_url := "u3", repository := none,
                     stats := none, files := none } = "unknown" ∧
    (({ sha := "cccccccccccc",
        author := ⟨"Alice", "alice@example.com", 1704074400000⟩,
        message := "third", html_url := "u3", repository := none,
        stats := none, files := none } : Commit) ∈
        (applyFilters demoCommits ["unknown"] 3).1 ↔
      ({ sha := "cccccccccccc",
         author := ⟨"Alice", "alice@example.com", 1704074400000⟩,
         message := "third", html_url := "u3", repository := none,
         stats := none, files := none } : Commit) ∈ demoCommits ∧
        ((["unknown"] : List String) = [] ∨ "unknown" ∈ (["unknown"] : List String))) :=
  ⟨(filter_unknown_repo _ rfl).1,
   (filter_unknown_repo _ rfl).2 demoCommits ["unknown"] 3⟩

/-- C2: for every commit and pair of detail levels L1 < L2 in [1,5], every
field rendered at L1 is subsumed by a field rendered at L2 (monotonic
information growth), some field rendered at L2 is subsumed by no field of L1
(strictness), and for every level outside [1,5] both the formatter output and
the rendered field list coincide with the level-3 rendering. -/
theorem detailLevel_monotone (c : Commit) (i : Nat) (L1 L2 L : Int)
    (h1 : 1 ≤ L1) (h12 : L1 < L2) (h5 : L2 ≤ 5) (hout : L < 1 ∨ 5 < L) :
    (∀ f ∈ renderedFields c L1, ∃ g ∈ renderedFields c L2, subsumes g f = true) ∧
    (∃ g ∈ renderedFields c L2, ∀ f ∈ renderedFields c L1, subsumes f g = false) ∧
    formatCommitByDetailLevel c i L = formatCommitByDetailLevel c i 3 ∧
    renderedFields c L = renderedFields c 3 := by
  have e1 : L ≠ 1 := by omega
  have e2 : L ≠ 2 := by omega
  have e3 : L ≠ 3 := by omega
  have e4 : L ≠ 4 := by omega
  have e5 : L ≠ 5 := by omega
  have hfb : formatCommitByDetailLevel c i L = formatCommitByDetailLevel c i 3 := by
    simp [formatCommitByDetailLevel, e1, e2, e3, e4, e5]
  have hrb : renderedFields c L = renderedFields c 3 := by
    simp [renderedFields, renderedFieldsAt, e1, e2, e3, e4, e5]
  have h14 : L1 ≤ 4 := by omega
  have h22 : 2 ≤ L2 := by omega
  refine ⟨?_, ?_, hfb, hrb⟩ <;>
    (simp only [renderedFields]
     generalize (msgBody c != "") = b
     interval_cases L1 <;> interval_cases L2 <;> cases b <;> decide)

/-- Witness for C2 at a concrete commit with levels 1 < 5 and the
out-of-range level 0. -/
theorem detailLevel_monotone_witness :
    ((1 : Int) ≤ 1 ∧ (1 : Int) < 5 ∧ (5 : Int) ≤ 5 ∧
      ((0 : Int) < 1 ∨ (5 : Int) < 0)) ∧
    ((∀ f ∈ renderedFields demoCommit 1,
        ∃ g ∈ renderedFields demoCommit 5, subsumes g f = true) ∧
     (∃ g ∈ renderedFields demoCommit 5,
        ∀ f ∈ renderedFields demoCommit 1, subsumes f g = false) ∧
     formatCommitByDetailLevel demoCommit 1 0 =
       formatCommitByDetailLevel demoCommit 1 3 ∧
     renderedFields demoCommit 0 = renderedFields demoCommit 3) :=
  ⟨⟨by norm_num, by norm_num, by norm_num, Or.inl (by norm_num)⟩,
   detailLevel_monotone demoCommit 1 1 5 0 (by norm_num) (by norm_num)
     (by norm_num) (Or.inl (by norm_num))⟩

/-- C1 counterexample: for the date range whose two endpoints are both
2024-01-01T00:00:00Z (epoch millisecond 1704067200000) the computed time span
is 0 days, not the 1 day the claim states. -/
theorem timeSpanDays_zero_counterexample :
    timeSpanDays 1704067200000 1704067200000 = 0 ∧
    ¬ timeSpanDays 1704067200000 1704067200000 = 1 := by decide

/-- C1 amended: the computed span is the exact ceiling of the millisecond
difference over one day with no flooring at 1: a range with `from = to` yields
a span of 0 days (so the commits-per-day average is a division by zero), any
nonempty range of at most one day yields 1 day, and 2024-01-01 to 2024-01-03
yields a 2-day ceiling span. -/
theorem timeSpanDays_ceiling (t d : Int) (hd0 : 0 < d) (hd1 : d ≤ 86400000) :
    timeSpanDays t t = 0 ∧
    timeSpanDays t (t + d) = 1 ∧
    timeSpanDays 1704067200000 1704240000000 = 2 := by
  refine ⟨?_, ?_, by decide⟩
  · unfold timeSpanDays
    omega
  · unfold timeSpanDays
    omega

/-- Witness for C1's amended statement at the concrete one-hour range starting
2024-01-01T00:00:00Z. -/
theorem timeSpanDays_ceiling_witness :
    (0 : Int) < 3600000 ∧ (3600000 : Int) ≤ 86400000 ∧
    (timeSpanDays 1704067200000 1704067200000 = 0 ∧
     timeSpanDays 1704067200000 (1704067200000 + 3600000) = 1 ∧
     timeSpanDays 1704067200000 1704240000000 = 2) :=
  ⟨by norm_num, by norm_num,
   timeSpanDays_ceiling 1704067200000 3600000 (by norm_num) (by norm_num)⟩

/-- Running the pagination loop over full pages followed by one short (or
empty) page appends every page's tagged commits in order and issues one
request per page. -/
theorem fetchLoop_full_then_short (repo : String) (short : List Commit)
    (hshort : short.length < perPage) :
    ∀ (fulls : List (List Commit)) (acc : List Commit),
      (∀ p ∈ fulls, p.length = perPage) →
      fetchLoop repo acc (fulls.map .ok ++ [.ok short]) =
        (.ok (acc ++ ((fulls ++ [short]).flatten.map (tagRepo repo))),
          fulls.length + 1) := by
  intro fulls
  induction fulls with
  | nil =>
    intro acc _
    by_cases h0 : short.length = 0
    · have : short = [] := List.length_eq_zero.mp h0
      subst this
      simp [fetchLoop]
    · simp [fetchLoop, h0, hshort]
  | cons p fulls ih =>
    intro acc hfull
    have hp : p.length = perPage := hfull p (by simp)
    have hp0 : ¬ p.length = 0 := by simp [hp, perPage]
    have hpfull : ¬ p.length < perPage := by omega
    have ihr := ih (acc ++ p.map (tagRepo repo)) (fun q hq => hfull q (by simp [hq]))
    simp only [List.map_cons, List.cons_append, fetchLoop, hp0, hpfull, if_false,
      ite_false]
    simp [ihr, List.append_assoc, List.append_eq]

/-- Running the pagination loop over full pages followed by an error response
aborts at the failing request: no response after the error is consumed. -/
theorem fetchLoop_error_aborts (repo : String) :
    ∀ (fulls : List (List Commit)) (acc : List Commit)
      (rest : List (Except Unit (List Commit))),
      (∀ p ∈ fulls, p.length = perPage) →
      fetchLoop repo acc (fulls.map .ok ++ .error () :: rest) =
        (.error (), fulls.length + 1) := by
  intro fulls
  induction fulls with
  | nil => intro acc rest _; simp [fetchLoop]
  | cons p fulls ih =>
    intro acc rest hfull
    have hp : p.length = perPage := hfull p (by simp)
    have hp0 : ¬ p.length = 0 := by simp [hp, perPage]
    have hpfull : ¬ p.length < perPage := by omega
    have ihr := ih (acc ++ p.map (tagRepo repo)) rest
      (fun q hq => hfull q (by simp [hq]))
    simp only [List.map_cons, List.cons_append, fetchLoop, hp0, hpfull, if_false,
      ite_false]
    simp [ihr, List.append_eq]

/-- Sum of the lengths of uniformly full pages. -/
theorem sum_lengths_of_full (fulls : List (List Commit))
    (hfull : ∀ p ∈ fulls, p.length = 100) :
    (fulls.map List.length).sum = 100 * fulls.length := by
  induction fulls with
  | nil => simp
  | cons p fulls ih =>
    have hp : p.length = 100 := hfull p (by simp)
    have := ih (fun q hq => hfull q (by simp [hq]))
    simp [hp, this]
    ring

/-- C5: with page size 100, a run whose successive page responses are the
full pages `fulls` (each of size 100) followed by one short page issues
exactly `fulls.length + 1` requests and stores all pages' tagged commits
appended in order, `100 * fulls.length + short.length` commits in total; in
particular sizes [100, 100, 37] give 3 requests and 237 commits, and a first
response of size 0 gives 1 request and an empty list. -/
theorem fetchCommits_pagination (repo : String) (d : Nat × Nat) (st : AppState)
    (fulls : List (List Commit)) (short : List Commit)
    (hrepo : repo ≠ "") (hfull : ∀ p ∈ fulls, p.length = 100)
    (hshort : short.length < 100) :
    (fetchCommits repo (some d) (fulls.map .ok ++ [.ok short]) st).2 =
      fulls.length + 1 ∧
    (fetchCommits repo (some d) (fulls.map .ok ++ [.ok short]) st).1.commits =
      ((fulls ++ [short]).flatten.map (tagRepo repo)) ∧
    (fetchCommits repo (some d) (fulls.map .ok ++ [.ok short]) st).1.commits.length =
      100 * fulls.length + short.length := by
  have hloop := fetchLoop_full_then_short repo short (by simpa [perPage] using hshort)
    fulls [] (by simpa [perPage] using hfull)
  have hmapmap : List.map (List.length ∘ List.map (tagRepo repo)) fulls =
      fulls.map List.length := by
    simp [Function.comp_def]
  have hlen :
      (((fulls ++ [short]).flatten.map (tagRepo repo))).length =
        100 * fulls.length + short.length := by
    simp [List.length_flatten, hmapmap, sum_lengths_of_full fulls hfull]
  refine ⟨?_, ?_, ?_⟩ <;>
    simp [fetchCommits, hrepo, hloop, hlen, hmapmap, sum_lengths_of_full fulls hfull]

/-- Witness for C5: page sizes [100, 100, 37] issue 3 requests and yield 237
commits. -/
theorem fetchCommits_pagination_witness :
    ("alpha" : String) ≠ "" ∧
    (fetchCommits "alpha" (some (0, 1))
        ([List.replicate 100 demoCommit, List.replicate 100 demoCommit].map .ok ++
          [.ok (List.replicate 37 demoCommit)]) ⟨[], [], []⟩).2 =
      [List.replicate 100 demoCommit, List.replicate 100 demoCommit].length + 1 ∧
    (fetchCommits "alpha" (some (0, 1))
        ([List.replicate 100 demoCommit, List.replicate 100 demoCommit].map .ok ++
          [.ok (List.replicate 37 demoCommit)]) ⟨[], [], []⟩).1.commits.length =
      100 * [List.replicate 100 demoCommit, List.replicate 100 demoCommit].length + 37 :=
  have h := fetchCommits_pagination "alpha" (0, 1) ⟨[], [], []⟩
    [List.replicate 100 demoCommit, List.replicate 100 demoCommit]
    (List.replicate 37 demoCommit)
    (by decide) (by simp) (by simp)
  ⟨by decide, h.1, by simpa using h.2.2⟩

/-- C6: a run in which some page request returns a non-success response
aborts at that request (no later response is consumed, no retry), reports a
single user-facing error toast, and leaves the stored commit list empty. -/
theorem fetchCommits_error_discards (repo : String) (d : Nat × Nat) (st : AppState)
    (fulls : List (List Commit)) (rest : List (Except Unit (List Commit)))
    (hrepo : repo ≠ "") (hfull : ∀ p ∈ fulls, p.length = 100) :
    (fetchCommits repo (some d) (fulls.map .ok ++ .error () :: rest) st).2 =
      fulls.length + 1 ∧
    (fetchCommits repo (some d) (fulls.map .ok ++ .error () :: rest) st).1.commits =
      [] ∧
    (fetchCommits repo (some d) (fulls.map .ok ++ .error () :: rest) st).1.toasts =
      st.toasts ++ [Toast.fetchError] := by
  have hloop := fetchLoop_error_aborts repo fulls [] rest
    (by simpa [perPage] using hfull)
  refine ⟨?_, ?_, ?_⟩ <;> simp [fetchCommits, hrepo, hloop]

/-- Witness for C6: one full page then an error, with a further (ignored)
response and a non-empty initial commit state. -/
theorem fetchCommits_error_discards_witness :
    ("alpha" : String) ≠ "" ∧
    (fetchCommits "alpha" (some (0, 1))
        ([List.replicate 100 demoCommit].map .ok ++ .error () :: [.ok []])
        ⟨demoCommits, demoCommits, []⟩).2 = [List.replicate 100 demoCommit].length + 1 ∧
    (fetchCommits "alpha" (some (0, 1))
        ([List.replicate 100 demoCommit].map .ok ++ .error () :: [.ok []])
        ⟨demoCommits, demoCommits, []⟩).1.commits = [] ∧
    (fetchCommits "alpha" (some (0, 1))
        ([List.replicate 100 demoCommit].map .ok ++ .error () :: [.ok []])
        ⟨demoCommits, demoCommits, []⟩).1.toasts = [] ++ [Toast.fetchError] :=
  have h := fetchCommits_error_discards "alpha" (0, 1) ⟨demoCommits, demoCommits, []⟩
    [List.replicate 100 demoCommit] [.ok []] (by decide) (by simp)
  ⟨by decide, h.1, h.2.1, h.2.2⟩

/-- Inserting an entry that fails the filter predicate leaves the filtered
list unchanged. -/
theorem filter_orderedInsert_neg (p : String × Nat → Bool) (a : String × Nat)
    (ha : p a = false) :
    ∀ s : List (String × Nat),
      (s.orderedInsert countGe a).filter p = s.filter p := by
  intro s
  induction s with
  | nil => simp [ha]
  | cons b l ih =>
    by_cases h : countGe a b
    · simp [List.orderedInsert, h, ha]
    · simp [List.orderedInsert, h, List.filter_cons, ih]

/-- Inserting an entry of count `n` into a descending-sorted list places it
before no other count-`n` entry: filtering to count `n` puts it first. -/
theorem filter_count_orderedInsert_pos (n : Nat) (a : String × Nat)
    (ha : a.2 = n) :
    ∀ s : List (String × Nat), s.Sorted countGe →
      (s.orderedInsert countGe a).filter (fun e => e.2 == n) =
        a :: s.filter (fun e => e.2 == n) := by
  intro s
  induction s with
  | nil => intro _; simp [ha]
  | cons b l ih =>
    intro hs
    by_cases h : countGe a b
    · simp [List.orderedInsert, h, ha]
    · have hb : ¬ (b.2 = n) := by
        simp [countGe] at h
        omega
      have hl : l.Sorted countGe := (List.sorted_cons.mp hs).2
      simp [List.orderedInsert, h, hb, ih hl, ha]

/-- Stability of the modelled sort: entries of any fixed count keep their
original relative order. -/
theorem filter_count_sortByCountDesc (n : Nat) (l : List (String × Nat)) :
    (sortByCountDesc l).filter (fun e => e.2 == n) =
      l.filter (fun e => e.2 == n) := by
  induction l with
  | nil => rfl
  | cons a l ih =>
    by_cases ha : a.2 = n
    · have hins := filter_count_orderedInsert_pos n a ha
        (l.insertionSort countGe) (List.sorted_insertionSort countGe l)
      simp only [sortByCountDesc, List.insertionSort] at ih ⊢
      rw [hins, ih]
      simp [ha]
    · have hpa : (fun e : String × Nat => e.2 == n) a = false := by simp [ha]
      have hneg := filter_orderedInsert_neg (fun e : String × Nat => e.2 == n)
        a hpa (l.insertionSort countGe)
      simp only [sortByCountDesc, List.insertionSort] at ih ⊢
      rw [hneg, ih]
      simp [ha]

/-- Effect of one count-record update on the key list: an existing key leaves
the keys unchanged, a fresh key is appended at the end. -/
theorem keys_bumpKey (k : String) :
    ∀ acc : List (String × Nat),
      (bumpKey acc k).map Prod.fst =
        if k ∈ acc.map Prod.fst then acc.map Prod.fst
        else acc.map Prod.fst ++ [k] := by
  intro acc
  induction acc with
  | nil => simp [bumpKey]
  | cons e rest ih =>
    obtain ⟨j, n⟩ := e
    by_cases hj : j = k
    · simp [bumpKey, hj]
    · have hkj : ¬ (k = j) := fun h => hj h.symm
      by_cases hk : k ∈ rest.map Prod.fst <;>
        simp [bumpKey, hj, hkj, hk, ih]

/-- Keys accumulated by the counting fold are the accumulator's keys followed
by the fresh keys in first-occurrence order. -/
theorem keys_foldl_bumpKey :
    ∀ (ks : List String) (acc : List (String × Nat)),
      ((ks.foldl bumpKey acc).map Prod.fst) =
        acc.map Prod.fst ++
          (firstOccurrences ks).filter
            (fun x => !((acc.map Prod.fst).contains x)) := by
  intro ks
  induction ks with
  | nil => intro acc; simp [firstOccurrences]
  | cons k ks ih =>
    intro acc
    simp only [List.foldl_cons]
    rw [ih (bumpKey acc k), keys_bumpKey k acc]
    by_cases hk : k ∈ acc.map Prod.fst
    · rw [if_pos hk]
      have hck : ((acc.map Prod.fst).contains k) = true := by
        simpa using hk
      simp only [firstOccurrences, List.filter_cons, hck, Bool.not_true,
        if_false, List.filter_filter]
      congr 1
      refine (List.filter_congr ?_).symm
      intro x _
      by_cases hx : x ∈ acc.map Prod.fst
      · simp [hx]
      · have hxk : ¬ (x = k) := fun h => hx (h ▸ hk)
        simp [hx, hxk]
    · rw [if_neg hk]
      have hck : ((acc.map Prod.fst).contains k) = false := by
        simpa using hk
      simp only [firstOccurrences, List.filter_cons, hck, Bool.not_false,
        if_true, List.filter_filter, List.append_assoc, List.singleton_append]
      congr 2
      refine List.filter_congr ?_
      intro x _
      by_cases hx : x ∈ acc.map Prod.fst <;> by_cases hxk : x = k <;>
        simp [hx, hxk]

/-- Effect of one count-record update on a lookup. -/
theorem lookupCount_bumpKey (j k : String) :
    ∀ acc, lookupCount (bumpKey acc j) k =
      lookupCount acc k + (if j = k then 1 else 0) := by
  intro acc
  induction acc with
  | nil => by_cases h : j = k <;> simp [bumpKey, lookupCount, h]
  | cons e rest ih =>
    obtain ⟨m, n⟩ := e
    by_cases hmj : m = j
    · subst hmj
      by_cases hmk : m = k
      · subst hmk
        simp [bumpKey, lookupCount]
      · simp [bumpKey, lookupCount, hmk]
    · by_cases hmk : m = k
      · subst hmk
        have hjk : ¬ (j = m) := fun h => hmj h.symm
        simp [bumpKey, lookupCount, hmj, hjk]
      · simp [bumpKey, lookupCount, hmj, hmk, ih]

/-- The counting fold computes occurrence counts. -/
theorem lookupCount_foldl :
    ∀ (ks : List String) (acc : List (String × Nat)) (k : String),
      lookupCount (ks.foldl bumpKey acc) k =
        lookupCount acc k + ks.count k := by
  intro ks
  induction ks with
  | nil => intro acc k; simp
  | cons j ks ih =>
    intro acc k
    simp only [List.foldl_cons, ih, lookupCount_bumpKey j k acc]
    by_cases h : j = k <;> simp [h, List.count_cons] <;> omega

/-- A count-record update preserves distinctness of keys. -/
theorem nodup_keys_bumpKey (k : String) (acc : List (String × Nat))
    (h : (acc.map Prod.fst).Nodup) :
    ((bumpKey acc k).map Prod.fst).Nodup := by
  rw [keys_bumpKey]
  by_cases hk : k ∈ acc.map Prod.fst
  · simpa [hk] using h
  · simp [hk, List.nodup_append, h]

/-- The counting fold keeps keys distinct. -/
theorem nodup_keys_foldl :
    ∀ (ks : List String) (acc : List (String × Nat)),
      (acc.map Prod.fst).Nodup → ((ks.foldl bumpKey acc).map Prod.fst).Nodup := by
  intro ks
  induction ks with
  | nil => intro acc h; simpa using h
  | cons j ks ih => intro acc h; exact ih _ (nodup_keys_bumpKey j acc h)

/-- In a record with distinct keys, membership determines the lookup. -/
theorem mem_lookupCount (a : String) (n : Nat) :
    ∀ l : List (String × Nat), (l.map Prod.fst).Nodup → (a, n) ∈ l →
      lookupCount l a = n := by
  intro l
  induction l with
  | nil => intro _ h; simp at h
  | cons e rest ih =>
    obtain ⟨m, v⟩ := e
    intro hnd hmem
    rcases List.mem_cons.mp hmem with he | hr
    · cases he
      simp [lookupCount]
    · have hma : ¬ (m = a) := by
        intro h
        subst h
        have : m ∈ rest.map Prod.fst := List.mem_map.mpr ⟨(m, n), hr, rfl⟩
        exact (List.nodup_cons.mp hnd).1 this
      simp only [lookupCount, hma, if_false, ite_false]
      exact ih (List.nodup_cons.mp hnd).2 hr

/-- A nonzero lookup witnesses key membership. -/
theorem lookupCount_pos_mem (a : String) :
    ∀ l : List (String × Nat), lookupCount l a ≠ 0 → a ∈ l.map Prod.fst := by
  intro l
  induction l with
  | nil => intro h; simp [lookupCount] at h
  | cons e rest ih =>
    obtain ⟨m, v⟩ := e
    intro h
    by_cases hm : m = a
    · subst hm; simp
    · simp only [lookupCount, hm, if_false, ite_false] at h
      exact List.mem_cons_of_mem _ (ih h)

/-- C7: the ranked author list is the 5-element prefix of a permutation of
the encounter-ordered author counts, sorted by count in non-increasing order,
with entries of equal count kept in their encounter order; the record's keys
are exactly the author names in first-occurrence order and its values are the
authors' commit counts; on the concrete example with counts A:5, B:5, C:3 and
A encountered first, the ranking is A, B, C. -/
theorem topAuthors_spec (cs : List Commit) :
    (topAuthors cs).length ≤ 5 ∧
    topAuthors cs = (sortByCountDesc (authorCounts cs)).take 5 ∧
    (sortByCountDesc (authorCounts cs)).Perm (authorCounts cs) ∧
    List.Pairwise countGe (sortByCountDesc (authorCounts cs)) ∧
    (∀ n, (sortByCountDesc (authorCounts cs)).filter (fun e => e.2 == n) =
      (authorCounts cs).filter (fun e => e.2 == n)) ∧
    (authorCounts cs).map Prod.fst =
      firstOccurrences (cs.map fun c => c.author.name) ∧
    (∀ e ∈ authorCounts cs, e.2 = (cs.map fun c => c.author.name).count e.1) ∧
    (∀ c ∈ cs, c.author.name ∈ (authorCounts cs).map Prod.fst) ∧
    topAuthors tieExampleCommits = [("A", 5), ("B", 5), ("C", 3)] := by
  have hfold : authorCounts cs = (cs.map fun c => c.author.name).foldl bumpKey [] := by
    simp [authorCounts, List.foldl_map]
  have hnodup : ((authorCounts cs).map Prod.fst).Nodup := by
    rw [hfold]
    exact nodup_keys_foldl _ [] (by simp)
  refine ⟨?_, rfl, ?_, ?_, ?_, ?_, ?_, ?_, ?_⟩
  · simp [topAuthors]
  · exact List.perm_insertionSort countGe (authorCounts cs)
  · exact List.sorted_insertionSort countGe (authorCounts cs)
  · exact fun n => filter_count_sortByCountDesc n (authorCounts cs)
  · rw [hfold, keys_foldl_bumpKey]
    simp
  · intro e he
    have hmem : (e.1, e.2) ∈ authorCounts cs := by simpa using he
    have hl := mem_lookupCount e.1 e.2 (authorCounts cs) hnodup hmem
    have hc : lookupCount (authorCounts cs) e.1 =
        (cs.map fun c => c.author.name).count e.1 := by
      rw [hfold, lookupCount_foldl]
      simp [lookupCount]
    omega
  · intro c hc
    have hm : c.author.name ∈ cs.map fun c => c.author.name :=
      List.mem_map.mpr ⟨c, hc, rfl⟩
    have hcount : (cs.map fun c => c.author.name).count c.author.name ≠ 0 := by
      simpa [Nat.pos_iff_ne_zero] using List.count_pos_iff_mem.mpr hm
    have hlk : lookupCount (authorCounts cs) c.author.name ≠ 0 := by
      rw [hfold, lookupCount_foldl]
      simpa [lookupCount] using hcount
    exact lookupCount_pos_mem c.author.name (authorCounts cs) hlk
  · rfl

/-- C8: the generated document decomposes as a prefix, the literal Total
Commits line stating exactly the filtered list's length (and the unfiltered
total), a middle part, the per-commit blocks joined in input order by
increasing sequence number, and a suffix: the stated count equals the
filtered list's length and the blocks are not reordered. -/
theorem generateOptimizedFormat_roundTrip (username : String)
    (selectedRepos : List String) (fromMs toMs : Nat) (detailLevel : Int)
    (tokenCount : Int) (now : Nat) (commits filteredCommits : List Commit) :
    ∃ pre mid post : String,
      generateOptimizedFormat username selectedRepos fromMs toMs detailLevel
          tokenCount now commits filteredCommits =
        pre ++
          ("**Total Commits:** " ++ toString filteredCommits.length ++
            " (filtered from " ++ toString commits.length ++ ")") ++
          mid ++
          String.intercalate "\n" (filteredCommits.mapIdx fun i c =>
            formatCommitByDetailLevel c (i + 1) detailLevel) ++
          post := by
  refine ⟨reportHeaderPre username selectedRepos fromMs toMs,
    reportHeaderPost detailLevel tokenCount now,
    reportSummary selectedRepos fromMs toMs detailLevel filteredCommits, ?_⟩
  have h : generateOptimizedFormat username selectedRepos fromMs toMs
      detailLevel tokenCount now commits filteredCommits =
      reportHeaderPre username selectedRepos fromMs toMs ++
        totalCommitsText filteredCommits.length commits.length ++
        reportHeaderPost detailLevel tokenCount now ++
        commitDetailsSection filteredCommits detailLevel ++
        reportSummary selectedRepos fromMs toMs detailLevel filteredCommits := rfl
  rw [h]
  simp only [totalCommitsText, commitDetailsSection, String.append_assoc]
